import Mathlib

/-!
Verification of the active-learning core of the mclass-sky repository.

This file is a shallow embedding of `src/mclearn/active_learner.py`
(`active_learn` and `run_active_learning_with_heuristic`) together with
proofs about the embedded program.

Modelling conventions:
* numpy arrays are Lean lists; row types, label types, the classifier state,
  the accuracy values, and the random-generator state are type parameters
  `F L C A G`.  `training_pool.copy()` has value semantics, so copying is
  the identity on the embedded value.
* the global numpy random state is threaded explicitly: `choice` is the
  embedded `np.random.choice(np.arange(0, n), k, replace=False)`; the errors
  that numpy raises (`ValueError` on an empty population, `ValueError` when a
  sample larger than the population is requested without replacement,
  `ValueError` on a negative sample size, `IndexError` on fancy indexing)
  are represented by the `ALError` type, whose constructors carry the names
  the specification gives these failure modes.
* `classifier.fit` mutates the classifier in place; here it is a function
  `C → List F → List L → C` whose result state is threaded.  The heuristic
  receives the candidate features, `X_train`, `y_train` and the classifier;
  the `n_classes`, `committee` and `bag_size` arguments are passed through
  unchanged by the loop, so they are captured inside the heuristic closure.
* the `while` loop is run on explicit fuel: `none` means the program is
  still running after `fuel` iterations, `some (.ok c)` means it returned
  the value `c`, and `some (.error e)` means it raised the exception `e`.
* `fitCalls`, `accCalls` and `batchSizes` are ghost fields recording the
  arguments of every `classifier.fit` call, every `compute_accuracy` call
  and the size of every candidate batch; they take no part in control flow.
-/

namespace Mclearn

set_option maxRecDepth 100000

/-- Exceptions of the embedded run.  `emptyPool` models the `ValueError`
`np.random.choice` raises on an empty population (the spec's
`EmptyPoolError`); `insufficientPool` the `ValueError` on a sample larger
than the population with `replace=False` (the spec's
`InsufficientPoolError`); `negativeSample` the `ValueError` on a negative
sample size; `indexOutOfRange` the `IndexError` of numpy fancy indexing. -/
inductive ALError : Type
  | emptyPool
  | insufficientPool
  | negativeSample
  | indexOutOfRange
  deriving DecidableEq, Repr

/-- Numpy fancy indexing `xs[idxs]`: the entries of `xs` at the positions
listed in `idxs`, in that order (duplicate positions allowed); `none` models
the `IndexError` raised when some position is out of range. -/
def selectIdx {α : Type} (xs : List α) : List Nat → Option (List α)
  | [] => some []
  | i :: is =>
    match xs[i]?, selectIdx xs is with
    | some a, some rest => some (a :: rest)
    | _, _ => none

/-- Numpy `np.delete(xs, idxs, axis=0)`: keep exactly the entries of `xs`
whose position does not occur in `idxs`.  (In every call the program makes,
`idxs` only holds in-range positions.) -/
def deleteIdx {α : Type} (xs : List α) (idxs : List Nat) : List α :=
  (xs.enum.filter (fun p => !(decide (p.1 ∈ idxs)))).map Prod.snd

/-- Model of `np.random.choice(np.arange(0, n), k, replace=False)` with the
random state `g` threaded explicitly.  The guards mirror numpy's own checks,
in numpy's order: an empty population raises `ValueError` (`a must be
non-empty`), a negative sample size raises `ValueError`, and a sample larger
than the population raises `ValueError` (`Cannot take a larger sample than
population when 'replace=False'`). -/
def npChoice {G : Type} (choice : G → Nat → Nat → List Nat × G) (g : G)
    (n : Nat) (k : Int) : Except ALError (List Nat × G) :=
  if n = 0 then .error .emptyPool
  else if k < 0 then .error .negativeSample
  else if (n : Int) < k then .error .insufficientPool
  else .ok (choice g n k.toNat)

/-- Line 111 of `active_learner.py`:
`candindate_size = min(random_n, len(unlabelled_oracle))`
(the typo in the name is the source's). -/
def candindateSize (randomN : Int) (poolLen : Nat) : Int :=
  min randomN (poolLen : Int)

/-- The caller-supplied inputs of one `active_learn` run. -/
structure ALInput (F L C A G : Type) where
  trainingPool : List F
  testingPool : List F
  trainingOracle : List L
  testingOracle : List L
  totalN : Int
  initialN : Int
  randomN : Int
  heuristic : List F → List F → List L → C → List Nat
  fit : C → List F → List L → C
  computeAccuracy : C → List F → List L → A
  choice : G → Nat → Nat → List Nat × G
  classifier0 : C
  g0 : G

/-- The mutable state of one `active_learn` run: the unlabelled pool, the
labelled set (`X_train`, `y_train`), the classifier, the learning curve and
the random state, plus the ghost trace fields. -/
structure RunState (F L C A G : Type) where
  unlabelledPool : List F
  unlabelledOracle : List L
  xTrain : List F
  yTrain : List L
  classifier : C
  learningCurve : List A
  g : G
  batchSizes : List Nat
  fitCalls : List (List F × List L)
  accCalls : List (List F × List L)
  deriving DecidableEq

variable {F L C A G : Type}

/-- One iteration of the query loop of `active_learn`
(`active_learner.py` lines 108-135). -/
def alStep (inp : ALInput F L C A G) (st : RunState F L C A G) :
    Except ALError (RunState F L C A G) :=
  match npChoice inp.choice st.g st.unlabelledOracle.length
      (candindateSize inp.randomN st.unlabelledOracle.length) with
  | .error e => .error e
  | .ok (candidateIndex, g2) =>
    match selectIdx st.unlabelledPool candidateIndex with
    | none => .error .indexOutOfRange
    | some xCandidates =>
      match selectIdx st.unlabelledOracle candidateIndex with
      | none => .error .indexOutOfRange
      | some yCandidates =>
        match selectIdx xCandidates
            (inp.heuristic xCandidates st.xTrain st.yTrain st.classifier) with
        | none => .error .indexOutOfRange
        | some xBest =>
          match selectIdx yCandidates
              (inp.heuristic xCandidates st.xTrain st.yTrain st.classifier) with
          | none => .error .indexOutOfRange
          | some yBest =>
            match selectIdx candidateIndex
                (inp.heuristic xCandidates st.xTrain st.yTrain st.classifier) with
            | none => .error .indexOutOfRange
            | some bestInUnlabelled =>
              .ok { unlabelledPool := deleteIdx st.unlabelledPool bestInUnlabelled
                    unlabelledOracle := deleteIdx st.unlabelledOracle bestInUnlabelled
                    xTrain := st.xTrain ++ xBest
                    yTrain := st.yTrain ++ yBest
                    classifier := inp.fit st.classifier
                      (st.xTrain ++ xBest) (st.yTrain ++ yBest)
                    learningCurve := st.learningCurve ++
                      [inp.computeAccuracy
                        (inp.fit st.classifier (st.xTrain ++ xBest) (st.yTrain ++ yBest))
                        inp.testingPool inp.testingOracle]
                    g := g2
                    batchSizes := st.batchSizes ++ [candidateIndex.length]
                    fitCalls := st.fitCalls ++ [(st.xTrain ++ xBest, st.yTrain ++ yBest)]
                    accCalls := st.accCalls ++ [(inp.testingPool, inp.testingOracle)] }

/-- The seeding phase of `active_learn` (`active_learner.py` lines 77-105):
copy the training pool, draw `initial_n` random rows, move them into the
labelled set, fit the classifier and record the first accuracy. -/
def seedPhase (inp : ALInput F L C A G) : Except ALError (RunState F L C A G) :=
  match npChoice inp.choice inp.g0 inp.trainingOracle.length inp.initialN with
  | .error e => .error e
  | .ok (candidateIndex, g2) =>
    match selectIdx inp.trainingPool candidateIndex with
    | none => .error .indexOutOfRange
    | some xCandidates =>
      match selectIdx inp.trainingOracle candidateIndex with
      | none => .error .indexOutOfRange
      | some yCandidates =>
        .ok { unlabelledPool := deleteIdx inp.trainingPool candidateIndex
              unlabelledOracle := deleteIdx inp.trainingOracle candidateIndex
              xTrain := ([] : List F) ++ xCandidates
              yTrain := ([] : List L) ++ yCandidates
              classifier := inp.fit inp.classifier0
                (([] : List F) ++ xCandidates) (([] : List L) ++ yCandidates)
              learningCurve := [inp.computeAccuracy
                (inp.fit inp.classifier0
                  (([] : List F) ++ xCandidates) (([] : List L) ++ yCandidates))
                inp.testingPool inp.testingOracle]
              g := g2
              batchSizes := []
              fitCalls := [(([] : List F) ++ xCandidates, ([] : List L) ++ yCandidates)]
              accCalls := [(inp.testingPool, inp.testingOracle)] }

/-- The `while len(y_train) < total_n` loop of `active_learn`, run on fuel. -/
def alLoop (inp : ALInput F L C A G) :
    Nat → RunState F L C A G → Option (Except ALError (RunState F L C A G))
  | 0, _ => none
  | fuel + 1, st =>
    if (st.yTrain.length : Int) < inp.totalN then
      match alStep inp st with
      | .error e => some (.error e)
      | .ok st2 => alLoop inp fuel st2
    else
      some (.ok st)

/-- A whole `active_learn` run, returning the final run state. -/
def active_learn_run (inp : ALInput F L C A G) (fuel : Nat) :
    Option (Except ALError (RunState F L C A G)) :=
  match seedPhase inp with
  | .error e => some (.error e)
  | .ok st => alLoop inp fuel st

/-- A whole `active_learn` run, returning what the Python function returns:
the learning curve. -/
def active_learn (inp : ALInput F L C A G) (fuel : Nat) :
    Option (Except ALError (List A)) :=
  (active_learn_run inp fuel).map (fun r => r.map (fun st => st.learningCurve))

/-- `k` successive iterations of the loop body, ignoring the loop guard;
the states this reaches include every state the actual run passes through
after the seed phase. -/
def stepN (inp : ALInput F L C A G) : Nat → RunState F L C A G →
    Except ALError (RunState F L C A G)
  | 0, st => .ok st
  | k + 1, st =>
    match alStep inp st with
    | .error e => .error e
    | .ok st2 => stepN inp k st2

/-- The pool-bookkeeping invariant of a run state with respect to the
original training pool `P` and training oracle `O`: labelled set and
unlabelled pool together are a permutation of the original pool (features
and labels), and the parallel lists have equal lengths. -/
structure PoolInv (P : List F) (O : List L) (st : RunState F L C A G) : Prop where
  permPool : (st.xTrain ++ st.unlabelledPool).Perm P
  permOracle : (st.yTrain ++ st.unlabelledOracle).Perm O
  lenPO : st.unlabelledPool.length = st.unlabelledOracle.length
  lenXY : st.xTrain.length = st.yTrain.length

/-- Element-wise containment invariant used for the frame property: every
row the run ever stores or feeds to `classifier.fit` comes from the caller's
training pool, and `compute_accuracy` is only ever called on the caller's
testing pool. -/
structure SubsetInv (inp : ALInput F L C A G) (st : RunState F L C A G) : Prop where
  xTrainSub : ∀ a ∈ st.xTrain, a ∈ inp.trainingPool
  yTrainSub : ∀ b ∈ st.yTrain, b ∈ inp.trainingOracle
  poolSub : ∀ a ∈ st.unlabelledPool, a ∈ inp.trainingPool
  oracleSub : ∀ b ∈ st.unlabelledOracle, b ∈ inp.trainingOracle
  fitCallsSub : ∀ xy ∈ st.fitCalls,
    (∀ a ∈ xy.1, a ∈ inp.trainingPool) ∧ (∀ b ∈ xy.2, b ∈ inp.trainingOracle)
  accCallsEq : ∀ t ∈ st.accCalls, t = (inp.testingPool, inp.testingOracle)

/-- What `np.random.choice(arange n, k, replace=False)` guarantees about its
result whenever it does not raise: `k` distinct in-range indices. -/
def ChoiceValid (choice : G → Nat → Nat → List Nat × G) : Prop :=
  ∀ g n k, 0 < n → k ≤ n →
    (choice g n k).1.length = k ∧ (choice g n k).1.Nodup ∧
      ∀ i ∈ (choice g n k).1, i < n

/-- The heuristic contract the spec states: on a non-empty candidate batch
the heuristic returns a non-empty set of distinct in-range batch indices. -/
def HeuristicValid (h : List F → List F → List L → C → List Nat) : Prop :=
  ∀ cands xt yt c, cands ≠ [] →
    h cands xt yt c ≠ [] ∧ (h cands xt yt c).Nodup ∧
      ∀ j ∈ h cands xt yt c, j < cands.length

/-- A single-selection heuristic: on a non-empty candidate batch it returns
exactly one in-range batch index. -/
def HeuristicSingle (h : List F → List F → List L → C → List Nat) : Prop :=
  ∀ cands xt yt c, cands ≠ [] →
    (h cands xt yt c).length = 1 ∧ ∀ j ∈ h cands xt yt c, j < cands.length

/-! ## The experiment orchestrator (`run_active_learning_with_heuristic`) -/

/-- The pickle path as a plain string (empty when absent); used only to
report where `pickle.dump` wrote. -/
def pathOrEmpty : Option String → String
  | some p => p
  | none => ""

/-- Python truthiness of the `pickle_path` argument: `None` and the empty
string are falsy. -/
def truthy : Option String → Bool
  | none => false
  | some s => !(s == "")

/-- Python slice `xs[i : i + len]` (out-of-range parts silently dropped). -/
def pythonSlice {α : Type} (xs : List α) (i len : Nat) : List α :=
  (xs.drop i).take len

/-- `training_pool[training_oracle == lab]`: boolean-mask selection of the
feature rows whose oracle label equals `lab`
(`active_learner.py` lines 191-197). -/
def classFeatures (lab : String) (pool : List F) (oracle : List String) :
    List F :=
  ((pool.zip oracle).filter (fun p => p.2 == lab)).map Prod.fst

/-- The balanced-mode sub-pool of one trial (`active_learner.py` lines
190-205): a Python slice of `s3 = full_sample_size // 3` rows of each class
starting at offset `i` (silently short when the class runs out of examples),
paired with `np.repeat` label vectors that are always full length `s3`. -/
def balancedSlice (pool : List F) (oracle : List String) (i s3 : Nat) :
    List F × List String :=
  (pythonSlice (classFeatures "Galaxy" pool oracle) i s3 ++
     pythonSlice (classFeatures "Star" pool oracle) i s3 ++
     pythonSlice (classFeatures "Quasar" pool oracle) i s3,
   List.replicate s3 "Galaxy" ++ List.replicate s3 "Star" ++
     List.replicate s3 "Quasar")

/-- Inputs of `run_active_learning_with_heuristic`: `base` carries the full
training data and the parameters handed down to `active_learn`. -/
structure OrchInput (F C A G : Type) where
  base : ALInput F String C A G
  balancedPool : Bool
  fullSampleSize : Nat
  noTrials : Nat
  picklePath : Option String

/-- The offset step of the trial loop: `sub_sample_size` under balanced
mode, `full_sample_size` otherwise (`active_learner.py` lines 179-187). -/
def iStep (o : OrchInput F C A G) : Nat :=
  if o.balancedPool then o.fullSampleSize / 3 else o.fullSampleSize

/-- The training sub-pool of the trial starting at offset `i`
(`active_learner.py` lines 189-208). -/
def trialPools (o : OrchInput F C A G) (i : Nat) : List F × List String :=
  if o.balancedPool then
    balancedSlice o.base.trainingPool o.base.trainingOracle i
      (o.fullSampleSize / 3)
  else
    (pythonSlice o.base.trainingPool i o.fullSampleSize,
     pythonSlice o.base.trainingOracle i o.fullSampleSize)

/-- The trial loop: one `active_learn` run per offset, threading the global
numpy random state and the in-place-refitted classifier across trials, and
collecting the learning curves in order. -/
def runTrials (o : OrchInput F C A G) (fuel : Nat) :
    List Nat → G → C → Option (Except ALError (List (List A) × G × C))
  | [], g, c => some (.ok ([], g, c))
  | i :: rest, g, c =>
    match active_learn_run
        { o.base with
          trainingPool := (trialPools o i).1
          trainingOracle := (trialPools o i).2
          g0 := g
          classifier0 := c } fuel with
    | none => none
    | some (.error e) => some (.error e)
    | some (.ok st) =>
      match runTrials o fuel rest st.g st.classifier with
      | none => none
      | some (.error e) => some (.error e)
      | some (.ok (curves, g2, c2)) =>
        some (.ok (st.learningCurve :: curves, g2, c2))

/-- The observable outcome of `run_active_learning_with_heuristic`: the
Python return value, and the `pickle.dump` effect as a (path, object) list. -/
structure OrchOut (A : Type) where
  returned : Option (List (List A))
  written : List (String × List (List A))
  deriving DecidableEq

/-- `run_active_learning_with_heuristic` (`active_learner.py` lines
149-227): run `no_trials` trials over contiguous slices, then either pickle
the list of learning curves to `pickle_path` and return `None` (truthy
path), or return the list (falsy path).  The trial offsets are
`np.arange(0, i_step * no_trials, i_step)`, i.e. `t * i_step` for
`t < no_trials` (for a positive step, the only case the program runs).
The Python function hard-codes `compute_balanced_accuracy` (an external
function from `mclearn.performance`, not part of this repository's core)
and `n_classes=3`; both travel through `base` untouched by the loop. -/
def run_active_learning_with_heuristic (o : OrchInput F C A G) (fuel : Nat) :
    Option (Except ALError (OrchOut A)) :=
  match runTrials o fuel ((List.range o.noTrials).map (fun t => t * iStep o))
      o.base.g0 o.base.classifier0 with
  | none => none
  | some (.error e) => some (.error e)
  | some (.ok (curves, _, _)) =>
    if truthy o.picklePath then
      some (.ok { returned := none, written := [(pathOrEmpty o.picklePath, curves)] })
    else
      some (.ok { returned := some curves, written := [] })

/-! ## Concrete instances used by the witnesses and counterexamples -/

/-- A deterministic random stream: drawing `k` indices from a pool of size
`n` yields `[0, ..., k-1]` (distinct and in range) and advances a counter. -/
def rangeChoice : Nat → Nat → Nat → List Nat × Nat :=
  fun g _ k => (List.range k, g + 1)

/-- The heuristic of the spec's concrete scenario: select the single
highest-index candidate of the batch. -/
def highestIndex : List Nat → List Nat → List Nat → Nat → List Nat :=
  fun cands _ _ _ => [cands.length - 1]

/-- A heuristic that violates its contract by returning the empty set. -/
def emptySelection : List Nat → List Nat → List Nat → Nat → List Nat :=
  fun _ _ _ _ => []

/-- A heuristic that violates its contract by returning an out-of-range
batch index. -/
def oobSelection : List Nat → List Nat → List Nat → Nat → List Nat :=
  fun cands _ _ _ => [cands.length]

/-- The spec's concrete scenario: a 100-example pool with two 50/50 classes,
`initial_n = 10`, `total_n = 30`, `random_n = 20`, highest-index heuristic;
the classifier state counts its fits and the accuracy function reports that
count. -/
def scenarioInput : ALInput Nat Nat Nat Nat Nat :=
  { trainingPool := List.range 100
    testingPool := [0, 1]
    trainingOracle := (List.range 100).map (fun i => i / 50)
    testingOracle := [0, 1]
    totalN := 30
    initialN := 10
    randomN := 20
    heuristic := highestIndex
    fit := fun c _ _ => c + 1
    computeAccuracy := fun c _ _ => c
    choice := rangeChoice
    classifier0 := 0
    g0 := 0 }

/-- A 5-example pool with `total_n = 7 > 5`: the loop must exhaust the pool. -/
def exhaustInput : ALInput Nat Nat Nat Nat Nat :=
  { scenarioInput with
    trainingPool := [3, 1, 4, 1, 5]
    trainingOracle := [0, 0, 1, 1, 0]
    totalN := 7
    initialN := 2
    randomN := 3 }

/-- A run whose heuristic always returns an out-of-range batch index. -/
def oobInput : ALInput Nat Nat Nat Nat Nat :=
  { scenarioInput with
    trainingPool := [6, 7, 8, 9, 10]
    trainingOracle := [0, 1, 0, 1, 0]
    totalN := 4
    initialN := 1
    randomN := 2
    heuristic := oobSelection }

/-- A run whose heuristic always returns the empty set. -/
def stuckInput : ALInput Nat Nat Nat Nat Nat :=
  { scenarioInput with
    trainingPool := [10, 20, 30]
    testingPool := [5]
    trainingOracle := [0, 1, 2]
    testingOracle := [0]
    totalN := 3
    initialN := 1
    randomN := 1
    heuristic := emptySelection }

/-- The state the seed phase of `stuckInput` produces. -/
def stuckSeedState : RunState Nat Nat Nat Nat Nat :=
  { unlabelledPool := [20, 30]
    unlabelledOracle := [1, 2]
    xTrain := [10]
    yTrain := [0]
    classifier := 1
    learningCurve := [1]
    g := 1
    batchSizes := []
    fitCalls := [([10], [0])]
    accCalls := [([5], [0])] }

/-- `initial_n = 5` exceeds the 3-example pool: seeding cannot draw. -/
def overseedInput : ALInput Nat Nat Nat Nat Nat :=
  { scenarioInput with
    trainingPool := [1, 2, 3]
    trainingOracle := [0, 0, 1]
    initialN := 5 }

/-- `total_n = 0`: a configuration error per the claim, accepted by the code. -/
def zeroTotalInput : ALInput Nat Nat Nat Nat Nat :=
  { scenarioInput with
    trainingPool := [1, 2, 3]
    trainingOracle := [0, 0, 1]
    totalN := 0
    initialN := 1
    randomN := 1 }

/-- `random_n = 0`, the documented exhaustive-pool-scoring configuration. -/
def zeroRandomInput : ALInput Nat Nat Nat Nat Nat :=
  { scenarioInput with
    randomN := 0
    heuristic := emptySelection }

/-- A mid-run state with 500 remaining unlabelled examples. -/
def fiveHundredState : RunState Nat Nat Nat Nat Nat :=
  { unlabelledPool := List.range 500
    unlabelledOracle := (List.range 500).map (fun i => i / 250)
    xTrain := [0]
    yTrain := [0]
    classifier := 1
    learningCurve := [1]
    g := 0
    batchSizes := []
    fitCalls := []
    accCalls := [] }

/-- The highest-index heuristic over string-labelled data. -/
def highestIndexStr : List Nat → List Nat → List String → Nat → List Nat :=
  fun cands _ _ _ => [cands.length - 1]

/-- One-trial orchestrator base input over a 4-example pool. -/
def orchBase : ALInput Nat String Nat Nat Nat :=
  { trainingPool := [1, 2, 3, 4]
    testingPool := [9]
    trainingOracle := ["Galaxy", "Star", "Galaxy", "Star"]
    testingOracle := ["Galaxy"]
    totalN := 1
    initialN := 1
    randomN := 1
    heuristic := highestIndexStr
    fit := fun c _ _ => c + 1
    computeAccuracy := fun c _ _ => c
    choice := rangeChoice
    classifier0 := 0
    g0 := 0 }

/-- Orchestrator input with a pickle path (truthy). -/
def orchPickled : OrchInput Nat Nat Nat Nat :=
  { base := orchBase
    balancedPool := false
    fullSampleSize := 4
    noTrials := 1
    picklePath := some "curves.pkl" }

/-- The same orchestrator input without a pickle path. -/
def orchReturned : OrchInput Nat Nat Nat Nat :=
  { orchPickled with picklePath := none }

/-- A training pool whose Galaxy class has only one example. -/
def c5Pool : List Nat := [10, 20, 30, 40, 50]

/-- The oracle of `c5Pool`: one Galaxy, two Stars, two Quasars. -/
def c5Oracle : List String := ["Galaxy", "Star", "Star", "Quasar", "Quasar"]

/-- Balanced-mode orchestrator input over `c5Pool` with slice size 6: each
class should contribute `6 / 3 = 2` rows per trial. -/
def c5Orch : OrchInput Nat Nat Nat Nat :=
  { base := { orchBase with trainingPool := c5Pool, trainingOracle := c5Oracle }
    balancedPool := true
    fullSampleSize := 6
    noTrials := 1
    picklePath := none }

/-! ## Lemmas about the embedded list primitives -/

theorem selectIdx_nil {α : Type} (xs : List α) : selectIdx xs [] = some [] := rfl

theorem selectIdx_cons_ok {α : Type} {xs : List α} {i : Nat} {is : List Nat}
    {a : α} {rest : List α} (h1 : xs[i]? = some a)
    (h2 : selectIdx xs is = some rest) :
    selectIdx xs (i :: is) = some (a :: rest) := by
  simp [selectIdx, h1, h2]

theorem selectIdx_cons_inv {α : Type} {xs : List α} {i : Nat} {is : List Nat}
    {ys : List α} (h : selectIdx xs (i :: is) = some ys) :
    ∃ a rest, xs[i]? = some a ∧ selectIdx xs is = some rest ∧ ys = a :: rest := by
  cases h1 : xs[i]? with
  | none => simp [selectIdx, h1] at h
  | some a =>
    cases h2 : selectIdx xs is with
    | none => simp [selectIdx, h1, h2] at h
    | some rest =>
      refine ⟨a, rest, rfl, rfl, ?_⟩
      simp only [selectIdx, h1, h2] at h
      exact (Option.some_injective _ h).symm

theorem selectIdx_length {α : Type} {xs : List α} {is : List Nat} {ys : List α}
    (h : selectIdx xs is = some ys) : ys.length = is.length := by
  induction is generalizing ys with
  | nil => cases h; rfl
  | cons i is ih =>
    obtain ⟨a, rest, _, h2, rfl⟩ := selectIdx_cons_inv h
    simp [ih h2]

theorem selectIdx_lt_length {α : Type} {xs : List α} {is : List Nat} {ys : List α}
    (h : selectIdx xs is = some ys) : ∀ i ∈ is, i < xs.length := by
  induction is generalizing ys with
  | nil => intro i hi; cases hi
  | cons j is ih =>
    obtain ⟨a, rest, h1, h2, rfl⟩ := selectIdx_cons_inv h
    intro i hi
    rcases List.mem_cons.1 hi with rfl | hi
    · exact (List.getElem?_eq_some_iff.1 h1).1
    · exact ih h2 i hi

theorem selectIdx_of_forall_lt {α : Type} {xs : List α} {is : List Nat}
    (h : ∀ i ∈ is, i < xs.length) : ∃ ys, selectIdx xs is = some ys := by
  induction is with
  | nil => exact ⟨[], rfl⟩
  | cons i is ih =>
    obtain ⟨ys, hy⟩ := ih (fun j hj => h j (List.mem_cons_of_mem _ hj))
    have hi : i < xs.length := h i (List.mem_cons_self _ _)
    exact ⟨xs[i] :: ys, selectIdx_cons_ok (List.getElem?_eq_getElem hi) hy⟩

theorem selectIdx_none_of_oob {α : Type} {xs : List α} {is : List Nat}
    (h : ∃ i ∈ is, xs.length ≤ i) : selectIdx xs is = none := by
  cases hs : selectIdx xs is with
  | none => rfl
  | some ys =>
    obtain ⟨i, hi, hlen⟩ := h
    exact absurd (selectIdx_lt_length hs i hi) (Nat.not_lt.2 hlen)

theorem selectIdx_mem {α : Type} {xs : List α} {is : List Nat} {ys : List α}
    (h : selectIdx xs is = some ys) : ∀ a ∈ ys, a ∈ xs := by
  induction is generalizing ys with
  | nil => cases h; intro a ha; cases ha
  | cons i is ih =>
    obtain ⟨a, rest, h1, h2, rfl⟩ := selectIdx_cons_inv h
    intro b hb
    rcases List.mem_cons.1 hb with rfl | hb
    · exact List.getElem?_mem h1
    · exact ih h2 b hb

theorem selectIdx_exists_idx {α : Type} {xs : List α} {is : List Nat} {ys : List α}
    (h : selectIdx xs is = some ys) : ∀ a ∈ ys, ∃ i ∈ is, xs[i]? = some a := by
  induction is generalizing ys with
  | nil => cases h; intro a ha; cases ha
  | cons i is ih =>
    obtain ⟨a, rest, h1, h2, rfl⟩ := selectIdx_cons_inv h
    intro b hb
    rcases List.mem_cons.1 hb with rfl | hb
    · exact ⟨i, List.mem_cons_self _ _, h1⟩
    · obtain ⟨j, hj, hj2⟩ := ih h2 b hb
      exact ⟨j, List.mem_cons_of_mem _ hj, hj2⟩

theorem selectIdx_getElem? {α : Type} {xs : List α} {is : List Nat} {ys : List α}
    (h : selectIdx xs is = some ys) (j : Nat) :
    ys[j]? = (is[j]?.bind fun i => xs[i]?) := by
  induction is generalizing ys j with
  | nil => cases h; simp
  | cons i is ih =>
    obtain ⟨a, rest, h1, h2, rfl⟩ := selectIdx_cons_inv h
    cases j with
    | zero => simpa using h1.symm
    | succ j => simpa using ih h2 j

theorem selectIdx_comp {α : Type} {xs ys : List α} {is js ks : List Nat}
    (h1 : selectIdx xs is = some ys) (h2 : selectIdx is js = some ks) :
    selectIdx ys js = selectIdx xs ks := by
  induction js generalizing ks with
  | nil => cases h2; rfl
  | cons j js ih =>
    obtain ⟨k, ks2, hj, hjs, rfl⟩ := selectIdx_cons_inv h2
    have hyj : ys[j]? = xs[k]? := by
      rw [selectIdx_getElem? h1 j, hj]; rfl
    show selectIdx ys (j :: js) = selectIdx xs (k :: ks2)
    simp only [selectIdx, hyj, ih hjs]

theorem selectIdx_nodup {α : Type} {xs : List α} {is : List Nat} {ys : List α}
    (hxs : xs.Nodup) (his : is.Nodup) (h : selectIdx xs is = some ys) :
    ys.Nodup := by
  induction is generalizing ys with
  | nil => cases h; exact List.nodup_nil
  | cons i is ih =>
    obtain ⟨a, rest, h1, h2, rfl⟩ := selectIdx_cons_inv h
    rcases List.nodup_cons.1 his with ⟨hnotin, his2⟩
    refine List.nodup_cons.2 ⟨?_, ih his2 h2⟩
    intro ha
    obtain ⟨i2, hi2, hget2⟩ := selectIdx_exists_idx h2 a ha
    have : i = i2 :=
      List.getElem?_inj (List.getElem?_eq_some_iff.1 h1).1 hxs (h1.trans hget2.symm)
    exact hnotin (this ▸ hi2)

theorem deleteIdx_nil {α : Type} (xs : List α) : deleteIdx xs [] = xs := by
  simp [deleteIdx, List.enum_map_snd]

theorem deleteIdx_subset {α : Type} {xs : List α} {is : List Nat} :
    ∀ a ∈ deleteIdx xs is, a ∈ xs := by
  intro a ha
  obtain ⟨p, hp, rfl⟩ := List.mem_map.1 ha
  exact List.snd_mem_of_mem_enum (List.mem_of_mem_filter hp)

theorem enum_nodup {α : Type} (xs : List α) : xs.enum.Nodup :=
  List.Nodup.of_map Prod.fst (by rw [List.enum_map_fst]; exact List.nodup_range _)

theorem selectIdx_perm_filter {α : Type} {xs : List α} {is : List Nat} {ys : List α}
    (his : is.Nodup) (h : selectIdx xs is = some ys) :
    ys.Perm ((xs.enum.filter (fun p => decide (p.1 ∈ is))).map Prod.snd) := by
  induction is generalizing ys with
  | nil =>
    cases h
    have : (xs.enum.filter (fun p => decide (p.1 ∈ ([] : List Nat)))) = [] := by
      simp
    rw [this]; rfl
  | cons i is ih =>
    obtain ⟨a, rest, h1, h2, rfl⟩ := selectIdx_cons_inv h
    rcases List.nodup_cons.1 his with ⟨hnotin, his2⟩
    have hpairs :
        (xs.enum.filter (fun p => decide (p.1 ∈ i :: is))).Perm
          ((i, a) :: xs.enum.filter (fun p => decide (p.1 ∈ is))) := by
      have hnd1 : (xs.enum.filter (fun p => decide (p.1 ∈ i :: is))).Nodup :=
        (enum_nodup xs).filter _
      have hnd2 : ((i, a) :: xs.enum.filter (fun p => decide (p.1 ∈ is))).Nodup := by
        refine List.nodup_cons.2 ⟨?_, (enum_nodup xs).filter _⟩
        intro hmem
        have := List.of_mem_filter hmem
        exact hnotin (by simpa using this)
      refine (List.perm_ext_iff_of_nodup hnd1 hnd2).2 ?_
      intro p
      constructor
      · intro hp
        have hpe := List.mem_of_mem_filter hp
        have hpm : p.1 ∈ i :: is := by simpa using List.of_mem_filter hp
        rcases List.mem_cons.1 hpm with h0 | h0
        · have hpget : xs[p.1]? = some p.2 := List.mem_enum_iff_getElem?.1 hpe
          rw [h0] at hpget
          have hpa : p.2 = a := Option.some_injective _ (hpget.symm.trans h1)
          have hpia : p = (i, a) := Prod.ext h0 hpa
          rw [hpia]
          exact List.mem_cons_self _ _
        · exact List.mem_cons_of_mem _
            (List.mem_filter.2 ⟨hpe, by simpa using h0⟩)
      · intro hp
        rcases List.mem_cons.1 hp with rfl | hp
        · refine List.mem_filter.2 ⟨List.mem_enum_iff_getElem?.2 h1, ?_⟩
          simp
        · refine List.mem_filter.2 ⟨List.mem_of_mem_filter hp, ?_⟩
          have : p.1 ∈ is := by simpa using List.of_mem_filter hp
          simp [this]
    refine ((ih his2 h2).cons a).trans ?_
    exact (hpairs.map Prod.snd).symm

theorem select_delete_perm {α : Type} {xs : List α} {is : List Nat} {ys : List α}
    (his : is.Nodup) (h : selectIdx xs is = some ys) :
    (ys ++ deleteIdx xs is).Perm xs := by
  have h1 := selectIdx_perm_filter his h
  have h2 :
      ((xs.enum.filter (fun p => decide (p.1 ∈ is))).map Prod.snd ++
        deleteIdx xs is).Perm xs := by
    unfold deleteIdx
    rw [← List.map_append]
    have hfil := List.filter_append_perm (fun p => decide (p.1 ∈ is)) xs.enum
    have := hfil.map Prod.snd
    rwa [List.enum_map_snd] at this
  exact (h1.append_right _).trans h2

theorem deleteIdx_length {α : Type} {xs : List α} {is : List Nat} {ys : List α}
    (his : is.Nodup) (h : selectIdx xs is = some ys) :
    (deleteIdx xs is).length + is.length = xs.length := by
  have := (select_delete_perm his h).length_eq
  rw [List.length_append, selectIdx_length h] at this
  omega

/-! ## Inversion and construction lemmas for the embedded program steps -/

theorem npChoice_ok_inv {G : Type} {choice : G → Nat → Nat → List Nat × G}
    {g : G} {n : Nat} {k : Int} {p : List Nat × G}
    (h : npChoice choice g n k = .ok p) :
    0 < n ∧ 0 ≤ k ∧ k ≤ (n : Int) ∧ p = choice g n k.toNat := by
  by_cases h0 : n = 0
  · simp [npChoice, h0] at h
  · by_cases h1 : k < 0
    · simp [npChoice, h0, h1] at h
    · by_cases h2 : (n : Int) < k
      · simp [npChoice, h0, h1, h2] at h
      · refine ⟨Nat.pos_of_ne_zero h0, le_of_not_lt h1, le_of_not_lt h2, ?_⟩
        simp only [npChoice, if_neg h0, if_neg h1, if_neg h2] at h
        exact (Except.ok.injEq _ _ ▸ h).symm

theorem npChoice_ok {G : Type} {choice : G → Nat → Nat → List Nat × G}
    {g : G} {n : Nat} {k : Int} (h0 : 0 < n) (h1 : 0 ≤ k) (h2 : k ≤ (n : Int)) :
    npChoice choice g n k = .ok (choice g n k.toNat) := by
  simp only [npChoice, if_neg (Nat.pos_iff_ne_zero.1 h0), if_neg (not_lt.2 h1),
    if_neg (not_lt.2 h2)]

theorem npChoice_emptyPool {G : Type} {choice : G → Nat → Nat → List Nat × G}
    {g : G} {k : Int} : npChoice choice g 0 k = .error .emptyPool := by
  simp [npChoice]

theorem alStep_ok_inv {inp : ALInput F L C A G} {st st2 : RunState F L C A G}
    (h : alStep inp st = .ok st2) :
    ∃ ci g2 xc yc xb yb bs,
      npChoice inp.choice st.g st.unlabelledOracle.length
          (candindateSize inp.randomN st.unlabelledOracle.length) = .ok (ci, g2) ∧
      selectIdx st.unlabelledPool ci = some xc ∧
      selectIdx st.unlabelledOracle ci = some yc ∧
      selectIdx xc (inp.heuristic xc st.xTrain st.yTrain st.classifier) = some xb ∧
      selectIdx yc (inp.heuristic xc st.xTrain st.yTrain st.classifier) = some yb ∧
      selectIdx ci (inp.heuristic xc st.xTrain st.yTrain st.classifier) = some bs ∧
      st2 = { unlabelledPool := deleteIdx st.unlabelledPool bs
              unlabelledOracle := deleteIdx st.unlabelledOracle bs
              xTrain := st.xTrain ++ xb
              yTrain := st.yTrain ++ yb
              classifier := inp.fit st.classifier (st.xTrain ++ xb) (st.yTrain ++ yb)
              learningCurve := st.learningCurve ++
                [inp.computeAccuracy
                  (inp.fit st.classifier (st.xTrain ++ xb) (st.yTrain ++ yb))
                  inp.testingPool inp.testingOracle]
              g := g2
              batchSizes := st.batchSizes ++ [ci.length]
              fitCalls := st.fitCalls ++ [(st.xTrain ++ xb, st.yTrain ++ yb)]
              accCalls := st.accCalls ++ [(inp.testingPool, inp.testingOracle)] } := by
  unfold alStep at h
  split at h
  · exact absurd h (by simp)
  · rename_i ci g2 heq1
    split at h
    · exact absurd h (by simp)
    · rename_i xc heq2
      split at h
      · exact absurd h (by simp)
      · rename_i yc heq3
        split at h
        · exact absurd h (by simp)
        · rename_i xb heq4
          split at h
          · exact absurd h (by simp)
          · rename_i yb heq5
            split at h
            · exact absurd h (by simp)
            · rename_i bs heq6
              exact ⟨ci, g2, xc, yc, xb, yb, bs, heq1, heq2, heq3, heq4, heq5,
                heq6, (Except.ok.injEq _ _ ▸ h).symm⟩

theorem alStep_mk {inp : ALInput F L C A G} {st : RunState F L C A G}
    {ci : List Nat} {g2 : G} {xc xb : List F} {yc yb : List L} {bs : List Nat}
    (h1 : npChoice inp.choice st.g st.unlabelledOracle.length
        (candindateSize inp.randomN st.unlabelledOracle.length) = .ok (ci, g2))
    (h2 : selectIdx st.unlabelledPool ci = some xc)
    (h3 : selectIdx st.unlabelledOracle ci = some yc)
    (h4 : selectIdx xc (inp.heuristic xc st.xTrain st.yTrain st.classifier) = some xb)
    (h5 : selectIdx yc (inp.heuristic xc st.xTrain st.yTrain st.classifier) = some yb)
    (h6 : selectIdx ci (inp.heuristic xc st.xTrain st.yTrain st.classifier) = some bs) :
    alStep inp st =
      .ok { unlabelledPool := deleteIdx st.unlabelledPool bs
            unlabelledOracle := deleteIdx st.unlabelledOracle bs
            xTrain := st.xTrain ++ xb
            yTrain := st.yTrain ++ yb
            classifier := inp.fit st.classifier (st.xTrain ++ xb) (st.yTrain ++ yb)
            learningCurve := st.learningCurve ++
              [inp.computeAccuracy
                (inp.fit st.classifier (st.xTrain ++ xb) (st.yTrain ++ yb))
                inp.testingPool inp.testingOracle]
            g := g2
            batchSizes := st.batchSizes ++ [ci.length]
            fitCalls := st.fitCalls ++ [(st.xTrain ++ xb, st.yTrain ++ yb)]
            accCalls := st.accCalls ++ [(inp.testingPool, inp.testingOracle)] } := by
  simp only [alStep, h1, h2, h3, h4, h5, h6]

theorem seedPhase_ok_inv {inp : ALInput F L C A G} {st : RunState F L C A G}
    (h : seedPhase inp = .ok st) :
    ∃ ci g2 xc yc,
      npChoice inp.choice inp.g0 inp.trainingOracle.length inp.initialN
          = .ok (ci, g2) ∧
      selectIdx inp.trainingPool ci = some xc ∧
      selectIdx inp.trainingOracle ci = some yc ∧
      st = { unlabelledPool := deleteIdx inp.trainingPool ci
             unlabelledOracle := deleteIdx inp.trainingOracle ci
             xTrain := [] ++ xc
             yTrain := [] ++ yc
             classifier := inp.fit inp.classifier0 ([] ++ xc) ([] ++ yc)
             learningCurve := [inp.computeAccuracy
               (inp.fit inp.classifier0 ([] ++ xc) ([] ++ yc))
               inp.testingPool inp.testingOracle]
             g := g2
             batchSizes := []
             fitCalls := [([] ++ xc, [] ++ yc)]
             accCalls := [(inp.testingPool, inp.testingOracle)] } := by
  unfold seedPhase at h
  split at h
  · exact absurd h (by simp)
  · rename_i ci g2 heq1
    split at h
    · exact absurd h (by simp)
    · rename_i xc heq2
      split at h
      · exact absurd h (by simp)
      · rename_i yc heq3
        exact ⟨ci, g2, xc, yc, heq1, heq2, heq3, (Except.ok.injEq _ _ ▸ h).symm⟩

theorem seedPhase_mk {inp : ALInput F L C A G}
    {ci : List Nat} {g2 : G} {xc : List F} {yc : List L}
    (h1 : npChoice inp.choice inp.g0 inp.trainingOracle.length inp.initialN
        = .ok (ci, g2))
    (h2 : selectIdx inp.trainingPool ci = some xc)
    (h3 : selectIdx inp.trainingOracle ci = some yc) :
    seedPhase inp =
      .ok { unlabelledPool := deleteIdx inp.trainingPool ci
            unlabelledOracle := deleteIdx inp.trainingOracle ci
            xTrain := [] ++ xc
            yTrain := [] ++ yc
            classifier := inp.fit inp.classifier0 ([] ++ xc) ([] ++ yc)
            learningCurve := [inp.computeAccuracy
              (inp.fit inp.classifier0 ([] ++ xc) ([] ++ yc))
              inp.testingPool inp.testingOracle]
            g := g2
            batchSizes := []
            fitCalls := [([] ++ xc, [] ++ yc)]
            accCalls := [(inp.testingPool, inp.testingOracle)] } := by
  simp only [seedPhase, h1, h2, h3]

/-! ## Invariant preservation -/

theorem alStep_poolInv {inp : ALInput F L C A G} {st st2 : RunState F L C A G}
    {P : List F} {O : List L}
    (hc : ChoiceValid inp.choice) (hh : HeuristicValid inp.heuristic)
    (h : alStep inp st = .ok st2) (hinv : PoolInv P O st) : PoolInv P O st2 := by
  obtain ⟨ci, g2, xc, yc, xb, yb, bs, hnp, hxc, hyc, hxb, hyb, hbs, rfl⟩ :=
    alStep_ok_inv h
  obtain ⟨hnpos, hk0, hkle, hpair⟩ := npChoice_ok_inv hnp
  have hcv := hc st.g st.unlabelledOracle.length
    (candindateSize inp.randomN st.unlabelledOracle.length).toNat hnpos
    (Int.toNat_le.2 hkle)
  rw [← hpair] at hcv
  obtain ⟨hcilen, hcind, hcilt⟩ := hcv
  have hbnd : (inp.heuristic xc st.xTrain st.yTrain st.classifier).Nodup := by
    by_cases hxcnil : xc = []
    · have : inp.heuristic xc st.xTrain st.yTrain st.classifier = [] := by
        rw [List.eq_nil_iff_forall_not_mem]
        intro j hj
        have := selectIdx_lt_length hxb j hj
        rw [hxcnil] at this
        exact absurd this (by simp)
      rw [this]; exact List.nodup_nil
    · exact (hh xc st.xTrain st.yTrain st.classifier hxcnil).2.1
  have hbsnd : bs.Nodup := selectIdx_nodup hcind hbnd hbs
  have hcomp1 : selectIdx st.unlabelledPool bs = some xb :=
    ((selectIdx_comp hxc hbs).symm.trans hxb)
  have hcomp2 : selectIdx st.unlabelledOracle bs = some yb :=
    ((selectIdx_comp hyc hbs).symm.trans hyb)
  have hperm1 := select_delete_perm hbsnd hcomp1
  have hperm2 := select_delete_perm hbsnd hcomp2
  have hdl1 := deleteIdx_length hbsnd hcomp1
  have hdl2 := deleteIdx_length hbsnd hcomp2
  refine ⟨?_, ?_, ?_, ?_⟩
  · show ((st.xTrain ++ xb) ++ deleteIdx st.unlabelledPool bs).Perm P
    rw [List.append_assoc]
    exact ((hperm1.append_left st.xTrain).trans hinv.permPool)
  · show ((st.yTrain ++ yb) ++ deleteIdx st.unlabelledOracle bs).Perm O
    rw [List.append_assoc]
    exact ((hperm2.append_left st.yTrain).trans hinv.permOracle)
  · show (deleteIdx st.unlabelledPool bs).length
        = (deleteIdx st.unlabelledOracle bs).length
    have := hinv.lenPO
    omega
  · show (st.xTrain ++ xb).length = (st.yTrain ++ yb).length
    have h1 := selectIdx_length hxb
    have h2 := selectIdx_length hyb
    have h3 := hinv.lenXY
    simp only [List.length_append]
    omega

theorem alStep_subsetInv {inp : ALInput F L C A G} {st st2 : RunState F L C A G}
    (h : alStep inp st = .ok st2) (hinv : SubsetInv inp st) : SubsetInv inp st2 := by
  obtain ⟨ci, g2, xc, yc, xb, yb, bs, hnp, hxc, hyc, hxb, hyb, hbs, rfl⟩ :=
    alStep_ok_inv h
  have hxcsub : ∀ a ∈ xc, a ∈ inp.trainingPool :=
    fun a ha => hinv.poolSub a (selectIdx_mem hxc a ha)
  have hycsub : ∀ b ∈ yc, b ∈ inp.trainingOracle :=
    fun b hb => hinv.oracleSub b (selectIdx_mem hyc b hb)
  have hxbsub : ∀ a ∈ xb, a ∈ inp.trainingPool :=
    fun a ha => hxcsub a (selectIdx_mem hxb a ha)
  have hybsub : ∀ b ∈ yb, b ∈ inp.trainingOracle :=
    fun b hb => hycsub b (selectIdx_mem hyb b hb)
  have hxt : ∀ a ∈ st.xTrain ++ xb, a ∈ inp.trainingPool := by
    intro a ha
    rcases List.mem_append.1 ha with ha | ha
    · exact hinv.xTrainSub a ha
    · exact hxbsub a ha
  have hyt : ∀ b ∈ st.yTrain ++ yb, b ∈ inp.trainingOracle := by
    intro b hb
    rcases List.mem_append.1 hb with hb | hb
    · exact hinv.yTrainSub b hb
    · exact hybsub b hb
  refine ⟨hxt, hyt, ?_, ?_, ?_, ?_⟩
  · exact fun a ha => hinv.poolSub a (deleteIdx_subset a ha)
  · exact fun b hb => hinv.oracleSub b (deleteIdx_subset b hb)
  · intro xy hxy
    rcases List.mem_append.1 hxy with hxy | hxy
    · exact hinv.fitCallsSub xy hxy
    · rcases List.mem_singleton.1 hxy with rfl
      exact ⟨hxt, hyt⟩
  · intro t ht
    rcases List.mem_append.1 ht with ht | ht
    · exact hinv.accCallsEq t ht
    · rcases List.mem_singleton.1 ht with rfl
      rfl

theorem seedPhase_poolInv {inp : ALInput F L C A G} {st0 : RunState F L C A G}
    (hc : ChoiceValid inp.choice)
    (hlen : inp.trainingPool.length = inp.trainingOracle.length)
    (h : seedPhase inp = .ok st0) :
    PoolInv inp.trainingPool inp.trainingOracle st0 ∧
      st0.yTrain.length = inp.initialN.toNat ∧
      st0.learningCurve.length = 1 ∧
      st0.unlabelledOracle.length + inp.initialN.toNat = inp.trainingOracle.length := by
  obtain ⟨ci, g2, xc, yc, hnp, hxc, hyc, rfl⟩ := seedPhase_ok_inv h
  obtain ⟨hnpos, hk0, hkle, hpair⟩ := npChoice_ok_inv hnp
  have hcv := hc inp.g0 inp.trainingOracle.length inp.initialN.toNat hnpos
    (Int.toNat_le.2 hkle)
  have hci : ci = (inp.choice inp.g0 inp.trainingOracle.length inp.initialN.toNat).1 :=
    congrArg Prod.fst hpair
  rw [← hci] at hcv
  obtain ⟨hcilen, hcind, hcilt⟩ := hcv
  have hperm1 := select_delete_perm hcind hxc
  have hperm2 := select_delete_perm hcind hyc
  have hdl1 := deleteIdx_length hcind hxc
  have hdl2 := deleteIdx_length hcind hyc
  have hxclen := selectIdx_length hxc
  have hyclen := selectIdx_length hyc
  refine ⟨⟨?_, ?_, ?_, ?_⟩, ?_, ?_, ?_⟩
  · show (([] ++ xc) ++ deleteIdx inp.trainingPool ci).Perm inp.trainingPool
    simpa using hperm1
  · show (([] ++ yc) ++ deleteIdx inp.trainingOracle ci).Perm inp.trainingOracle
    simpa using hperm2
  · show (deleteIdx inp.trainingPool ci).length
        = (deleteIdx inp.trainingOracle ci).length
    omega
  · show ([] ++ xc).length = ([] ++ yc).length
    simp only [List.nil_append]
    omega
  · show ([] ++ yc).length = inp.initialN.toNat
    simp only [List.nil_append]
    omega
  · rfl
  · show (deleteIdx inp.trainingOracle ci).length + inp.initialN.toNat
        = inp.trainingOracle.length
    omega

theorem seedPhase_subsetInv {inp : ALInput F L C A G} {st0 : RunState F L C A G}
    (h : seedPhase inp = .ok st0) : SubsetInv inp st0 := by
  obtain ⟨ci, g2, xc, yc, hnp, hxc, hyc, rfl⟩ := seedPhase_ok_inv h
  have hxcsub : ∀ a ∈ [] ++ xc, a ∈ inp.trainingPool := by
    intro a ha
    exact selectIdx_mem hxc a (by simpa using ha)
  have hycsub : ∀ b ∈ [] ++ yc, b ∈ inp.trainingOracle := by
    intro b hb
    exact selectIdx_mem hyc b (by simpa using hb)
  refine ⟨hxcsub, hycsub, ?_, ?_, ?_, ?_⟩
  · exact fun a ha => deleteIdx_subset a ha
  · exact fun b hb => deleteIdx_subset b hb
  · intro xy hxy
    rcases List.mem_singleton.1 hxy with rfl
    exact ⟨hxcsub, hycsub⟩
  · intro t ht
    rcases List.mem_singleton.1 ht with rfl
    rfl

theorem stepN_poolInv {inp : ALInput F L C A G} {P : List F} {O : List L}
    (hc : ChoiceValid inp.choice) (hh : HeuristicValid inp.heuristic) :
    ∀ {k : Nat} {st st2 : RunState F L C A G},
      stepN inp k st = .ok st2 → PoolInv P O st → PoolInv P O st2 := by
  intro k
  induction k with
  | zero =>
    intro st st2 h hinv
    cases h
    exact hinv
  | succ k ih =>
    intro st st2 h hinv
    unfold stepN at h
    cases hs : alStep inp st with
    | error e => rw [hs] at h; exact absurd h (by simp)
    | ok st1 =>
      rw [hs] at h
      exact ih h (alStep_poolInv hc hh hs hinv)

theorem stepN_subsetInv {inp : ALInput F L C A G} :
    ∀ {k : Nat} {st st2 : RunState F L C A G},
      stepN inp k st = .ok st2 → SubsetInv inp st → SubsetInv inp st2 := by
  intro k
  induction k with
  | zero =>
    intro st st2 h hinv
    cases h
    exact hinv
  | succ k ih =>
    intro st st2 h hinv
    unfold stepN at h
    cases hs : alStep inp st with
    | error e => rw [hs] at h; exact absurd h (by simp)
    | ok st1 =>
      rw [hs] at h
      exact ih h (alStep_subsetInv hs hinv)

/-! ## Step success and loop behaviour -/

theorem alStep_ok {inp : ALInput F L C A G} {st : RunState F L C A G}
    {P : List F} {O : List L}
    (hc : ChoiceValid inp.choice) (hh : HeuristicValid inp.heuristic)
    (hinv : PoolInv P O st) (hne : st.unlabelledOracle ≠ [])
    (hr : 1 ≤ inp.randomN) :
    ∃ st2, alStep inp st = .ok st2 ∧ PoolInv P O st2 ∧
      st.yTrain.length < st2.yTrain.length ∧
      st2.learningCurve.length = st.learningCurve.length + 1 ∧
      st2.unlabelledOracle.length < st.unlabelledOracle.length ∧
      ((∀ cands xt yt c, (inp.heuristic cands xt yt c).length ≤ 1) →
        st2.yTrain.length = st.yTrain.length + 1 ∧
        st2.unlabelledOracle.length + 1 = st.unlabelledOracle.length) := by
  have hnpos : 0 < st.unlabelledOracle.length := List.length_pos.2 hne
  have h1n : (1 : Int) ≤ (st.unlabelledOracle.length : Int) := by exact_mod_cast hnpos
  have hcs1 : (1 : Int) ≤ candindateSize inp.randomN st.unlabelledOracle.length :=
    le_min hr h1n
  have hcsle : candindateSize inp.randomN st.unlabelledOracle.length
      ≤ (st.unlabelledOracle.length : Int) := min_le_right _ _
  have hnp : npChoice inp.choice st.g st.unlabelledOracle.length
      (candindateSize inp.randomN st.unlabelledOracle.length)
      = .ok (inp.choice st.g st.unlabelledOracle.length
          (candindateSize inp.randomN st.unlabelledOracle.length).toNat) :=
    npChoice_ok hnpos (by omega) hcsle
  have hcv := hc st.g st.unlabelledOracle.length
    (candindateSize inp.randomN st.unlabelledOracle.length).toNat hnpos
    (Int.toNat_le.2 hcsle)
  obtain ⟨hcilen, hcind, hcilt⟩ := hcv
  have hcipool : ∀ i ∈ (inp.choice st.g st.unlabelledOracle.length
      (candindateSize inp.randomN st.unlabelledOracle.length).toNat).1,
      i < st.unlabelledPool.length := by
    intro i hi
    rw [hinv.lenPO]
    exact hcilt i hi
  obtain ⟨xc, hxc⟩ := selectIdx_of_forall_lt hcipool
  obtain ⟨yc, hyc⟩ := selectIdx_of_forall_lt hcilt
  have hxclen := selectIdx_length hxc
  have hyclen := selectIdx_length hyc
  have hxcne : xc ≠ [] := by
    rw [← List.length_pos, hxclen, hcilen]
    omega
  obtain ⟨hbne, hbnd, hblt⟩ := hh xc st.xTrain st.yTrain st.classifier hxcne
  obtain ⟨xb, hxb⟩ := selectIdx_of_forall_lt hblt
  obtain ⟨yb, hyb⟩ := selectIdx_of_forall_lt (by rw [hyclen, ← hxclen]; exact hblt)
  obtain ⟨bs, hbs⟩ := selectIdx_of_forall_lt (by rw [← hxclen]; exact hblt)
  have hbsnd : bs.Nodup := selectIdx_nodup hcind hbnd hbs
  have hcomp1 : selectIdx st.unlabelledPool bs = some xb :=
    ((selectIdx_comp hxc hbs).symm.trans hxb)
  have hcomp2 : selectIdx st.unlabelledOracle bs = some yb :=
    ((selectIdx_comp hyc hbs).symm.trans hyb)
  have hdl2 := deleteIdx_length hbsnd hcomp2
  have hbpos : 0 < (inp.heuristic xc st.xTrain st.yTrain st.classifier).length :=
    List.length_pos.2 hbne
  have hxblen := selectIdx_length hxb
  have hyblen := selectIdx_length hyb
  have hbslen := selectIdx_length hbs
  have hstep := alStep_mk hnp hxc hyc hxb hyb hbs
  refine ⟨_, hstep, alStep_poolInv hc hh hstep hinv, ?_, ?_, ?_, ?_⟩
  · show st.yTrain.length < (st.yTrain ++ yb).length
    simp only [List.length_append]
    omega
  · show (st.learningCurve ++ [_]).length = st.learningCurve.length + 1
    simp
  · show (deleteIdx st.unlabelledOracle bs).length < st.unlabelledOracle.length
    omega
  · intro hone
    have := hone xc st.xTrain st.yTrain st.classifier
    constructor
    · show (st.yTrain ++ yb).length = st.yTrain.length + 1
      simp only [List.length_append]
      omega
    · show (deleteIdx st.unlabelledOracle bs).length + 1
          = st.unlabelledOracle.length
      omega

theorem alLoop_done {inp : ALInput F L C A G} {st : RunState F L C A G}
    (h : ¬ ((st.yTrain.length : Int) < inp.totalN)) (fuel : Nat) :
    alLoop inp (fuel + 1) st = some (.ok st) := by
  simp [alLoop, h]

theorem alLoop_step {inp : ALInput F L C A G} {st st2 : RunState F L C A G}
    (hg : (st.yTrain.length : Int) < inp.totalN)
    (hs : alStep inp st = .ok st2) (fuel : Nat) :
    alLoop inp (fuel + 1) st = alLoop inp fuel st2 := by
  simp [alLoop, hg, hs]

theorem alLoop_error {inp : ALInput F L C A G} {st : RunState F L C A G}
    {e : ALError} (hg : (st.yTrain.length : Int) < inp.totalN)
    (hs : alStep inp st = .error e) (fuel : Nat) :
    alLoop inp (fuel + 1) st = some (.error e) := by
  simp [alLoop, hg, hs]

/-- Fuel-indexed termination of the query loop: if the invariant holds and
the labelled set is at most `m` short of `total_n`, then `m + 1` units of
fuel complete the loop successfully, the learning curve growing by exactly
one entry per transferred batch. -/
theorem alLoop_term {inp : ALInput F L C A G} {P : List F} {O : List L}
    (hc : ChoiceValid inp.choice) (hh : HeuristicValid inp.heuristic)
    (hr : 1 ≤ inp.randomN) (htot : inp.totalN ≤ (P.length : Int)) :
    ∀ (m : Nat) (st : RunState F L C A G), PoolInv P O st →
      inp.totalN ≤ (st.yTrain.length : Int) + m →
      ∃ st2, alLoop inp (m + 1) st = some (.ok st2) ∧ PoolInv P O st2 ∧
        st.yTrain.length ≤ st2.yTrain.length := by
  intro m
  induction m with
  | zero =>
    intro st hinv hm
    have hg : ¬ ((st.yTrain.length : Int) < inp.totalN) := by omega
    exact ⟨st, alLoop_done hg 0, hinv, le_refl _⟩
  | succ m ih =>
    intro st hinv hm
    by_cases hg : (st.yTrain.length : Int) < inp.totalN
    · have hne : st.unlabelledOracle ≠ [] := by
        intro hnil
        have h1 := hinv.permPool.length_eq
        have h2 := hinv.lenPO
        have h3 := hinv.lenXY
        rw [List.length_append] at h1
        have h4 : st.unlabelledOracle.length = 0 := by rw [hnil]; rfl
        omega
      obtain ⟨st1, hs, hinv1, hlt, _, _, _⟩ := alStep_ok hc hh hinv hne hr
      obtain ⟨st2, hloop, hinv2, hle⟩ := ih st1 hinv1 (by omega)
      exact ⟨st2, (alLoop_step hg hs (m + 1)).trans hloop, hinv2, by omega⟩
    · exact ⟨st, alLoop_done hg (m + 1), hinv, le_refl _⟩

/-- Exact learning-curve accounting for single-selection heuristics: each
iteration transfers exactly one example and appends exactly one accuracy, so
from a state `m` short of `total_n` the loop ends with the labelled set at
exactly `total_n` and the curve grown by exactly `m`. -/
theorem alLoop_count {inp : ALInput F L C A G} {P : List F} {O : List L}
    (hc : ChoiceValid inp.choice) (hh : HeuristicValid inp.heuristic)
    (hone : ∀ cands xt yt c, (inp.heuristic cands xt yt c).length ≤ 1)
    (hr : 1 ≤ inp.randomN) (htot : inp.totalN ≤ (P.length : Int)) :
    ∀ (m : Nat) (st : RunState F L C A G), PoolInv P O st →
      inp.totalN = (st.yTrain.length : Int) + m →
      ∃ st2, alLoop inp (m + 1) st = some (.ok st2) ∧ PoolInv P O st2 ∧
        st2.yTrain.length = st.yTrain.length + m ∧
        st2.learningCurve.length = st.learningCurve.length + m := by
  intro m
  induction m with
  | zero =>
    intro st hinv hm
    have hg : ¬ ((st.yTrain.length : Int) < inp.totalN) := by omega
    exact ⟨st, alLoop_done hg 0, hinv, by omega, by omega⟩
  | succ m ih =>
    intro st hinv hm
    have hg : (st.yTrain.length : Int) < inp.totalN := by omega
    have hne : st.unlabelledOracle ≠ [] := by
      intro hnil
      have h1 := hinv.permPool.length_eq
      have h2 := hinv.lenPO
      have h3 := hinv.lenXY
      rw [List.length_append] at h1
      have h4 : st.unlabelledOracle.length = 0 := by rw [hnil]; rfl
      omega
    obtain ⟨st1, hs, hinv1, _, hcur, _, hsing⟩ := alStep_ok hc hh hinv hne hr
    obtain ⟨hy1, _⟩ := hsing hone
    obtain ⟨st2, hloop, hinv2, hy2, hcur2⟩ := ih st1 hinv1 (by omega)
    refine ⟨st2, (alLoop_step hg hs (m + 1)).trans hloop, hinv2, by omega, by omega⟩

/-- Pool exhaustion: when `total_n` exceeds the original pool size and the
heuristic moves exactly one example per iteration, the loop empties the
unlabelled pool and the next `np.random.choice` call raises on the empty
population (the `EmptyPoolError` failure mode). -/
theorem alLoop_exhaust {inp : ALInput F L C A G} {P : List F} {O : List L}
    (hc : ChoiceValid inp.choice) (hh : HeuristicValid inp.heuristic)
    (hone : ∀ cands xt yt c, (inp.heuristic cands xt yt c).length ≤ 1)
    (hr : 1 ≤ inp.randomN) (htot : (P.length : Int) < inp.totalN) :
    ∀ (u : Nat) (st : RunState F L C A G), PoolInv P O st →
      st.unlabelledOracle.length = u →
      alLoop inp (u + 1) st = some (.error .emptyPool) := by
  intro u
  induction u with
  | zero =>
    intro st hinv hu
    have h1 := hinv.permPool.length_eq
    rw [List.length_append] at h1
    have h2 := hinv.lenPO
    have h3 := hinv.lenXY
    have hg : (st.yTrain.length : Int) < inp.totalN := by omega
    have hstep : alStep inp st = .error .emptyPool := by
      unfold alStep
      rw [hu, npChoice_emptyPool]
    exact alLoop_error hg hstep 0
  | succ u ih =>
    intro st hinv hu
    have h1 := hinv.permPool.length_eq
    rw [List.length_append] at h1
    have h2 := hinv.lenPO
    have h3 := hinv.lenXY
    have hg : (st.yTrain.length : Int) < inp.totalN := by omega
    have hne : st.unlabelledOracle ≠ [] := by
      intro hnil
      rw [hnil] at hu
      exact absurd hu (by simp)
    obtain ⟨st1, hs, hinv1, _, _, _, hsing⟩ := alStep_ok hc hh hinv hne hr
    obtain ⟨_, hu1⟩ := hsing hone
    exact (alLoop_step hg hs (u + 1)).trans (ih st1 hinv1 (by omega))

/-- A heuristic that returns the empty index set makes the loop run forever:
the iteration succeeds without transferring anything, `len(y_train)` never
grows, and no amount of fuel finishes the loop. -/
theorem alLoop_stuck {inp : ALInput F L C A G}
    (hempty : ∀ cands xt yt c, inp.heuristic cands xt yt c = [])
    (hc : ChoiceValid inp.choice) (hr : 1 ≤ inp.randomN) :
    ∀ (fuel : Nat) (st : RunState F L C A G),
      st.unlabelledOracle ≠ [] →
      st.unlabelledPool.length = st.unlabelledOracle.length →
      (st.yTrain.length : Int) < inp.totalN →
      alLoop inp fuel st = none := by
  intro fuel
  induction fuel with
  | zero => intro st _ _ _; rfl
  | succ fuel ih =>
    intro st hne hlen hg
    have hnpos : 0 < st.unlabelledOracle.length := List.length_pos.2 hne
    have h1n : (1 : Int) ≤ (st.unlabelledOracle.length : Int) := by exact_mod_cast hnpos
    have hcs1 : (1 : Int) ≤ candindateSize inp.randomN st.unlabelledOracle.length :=
      le_min hr h1n
    have hcsle : candindateSize inp.randomN st.unlabelledOracle.length
        ≤ (st.unlabelledOracle.length : Int) := min_le_right _ _
    have hnp : npChoice inp.choice st.g st.unlabelledOracle.length
        (candindateSize inp.randomN st.unlabelledOracle.length)
        = .ok (inp.choice st.g st.unlabelledOracle.length
            (candindateSize inp.randomN st.unlabelledOracle.length).toNat) :=
      npChoice_ok hnpos (by omega) hcsle
    obtain ⟨hcilen, hcind, hcilt⟩ := hc st.g st.unlabelledOracle.length
      (candindateSize inp.randomN st.unlabelledOracle.length).toNat hnpos
      (Int.toNat_le.2 hcsle)
    have hcipool : ∀ i ∈ (inp.choice st.g st.unlabelledOracle.length
        (candindateSize inp.randomN st.unlabelledOracle.length).toNat).1,
        i < st.unlabelledPool.length := by
      intro i hi
      rw [hlen]
      exact hcilt i hi
    obtain ⟨xc, hxc⟩ := selectIdx_of_forall_lt hcipool
    obtain ⟨yc, hyc⟩ := selectIdx_of_forall_lt hcilt
    have h4 : selectIdx xc (inp.heuristic xc st.xTrain st.yTrain st.classifier)
        = some [] := by rw [hempty]; exact selectIdx_nil _
    have h5 : selectIdx yc (inp.heuristic xc st.xTrain st.yTrain st.classifier)
        = some [] := by rw [hempty]; exact selectIdx_nil _
    have h6 : selectIdx (inp.choice st.g st.unlabelledOracle.length
          (candindateSize inp.randomN st.unlabelledOracle.length).toNat).1
        (inp.heuristic xc st.xTrain st.yTrain st.classifier) = some [] := by
      rw [hempty]; exact selectIdx_nil _
    have hstep := alStep_mk hnp hxc hyc h4 h5 h6
    rw [alLoop_step hg hstep fuel]
    apply ih
    · show deleteIdx st.unlabelledOracle [] ≠ []
      rw [deleteIdx_nil]
      exact hne
    · show (deleteIdx st.unlabelledPool []).length
          = (deleteIdx st.unlabelledOracle []).length
      rw [deleteIdx_nil, deleteIdx_nil]
      exact hlen
    · show ((st.yTrain ++ []).length : Int) < inp.totalN
      rw [List.append_nil]
      exact hg

/-! ## Seed-phase construction and run-level helpers -/

theorem seedPhase_ok_of {inp : ALInput F L C A G}
    (hc : ChoiceValid inp.choice)
    (hlen : inp.trainingPool.length = inp.trainingOracle.length)
    (hn : 0 < inp.trainingOracle.length)
    (h0 : 0 ≤ inp.initialN)
    (hle : inp.initialN ≤ (inp.trainingOracle.length : Int)) :
    ∃ st0, seedPhase inp = .ok st0 := by
  have hnp : npChoice inp.choice inp.g0 inp.trainingOracle.length inp.initialN
      = .ok (inp.choice inp.g0 inp.trainingOracle.length inp.initialN.toNat) :=
    npChoice_ok hn h0 hle
  obtain ⟨hlen2, hnd, hlt⟩ := hc inp.g0 inp.trainingOracle.length
    inp.initialN.toNat hn (Int.toNat_le.2 hle)
  obtain ⟨xc, hxc⟩ := selectIdx_of_forall_lt
    (fun i hi => by rw [hlen]; exact hlt i hi)
  obtain ⟨yc, hyc⟩ := selectIdx_of_forall_lt hlt
  exact ⟨_, seedPhase_mk hnp hxc hyc⟩

theorem seedPhase_insufficient {inp : ALInput F L C A G}
    (hn : 0 < inp.trainingOracle.length)
    (hgt : (inp.trainingOracle.length : Int) < inp.initialN) :
    seedPhase inp = .error .insufficientPool := by
  have h0 : ¬ inp.initialN < 0 := by
    have : (0 : Int) ≤ (inp.trainingOracle.length : Int) := Int.ofNat_nonneg _
    omega
  have hnp : npChoice inp.choice inp.g0 inp.trainingOracle.length inp.initialN
      = .error .insufficientPool := by
    unfold npChoice
    rw [if_neg (Nat.pos_iff_ne_zero.1 hn), if_neg h0, if_pos hgt]
  unfold seedPhase
  rw [hnp]

theorem active_learn_run_seed_ok {inp : ALInput F L C A G}
    {st0 : RunState F L C A G} (h : seedPhase inp = .ok st0) (fuel : Nat) :
    active_learn_run inp fuel = alLoop inp fuel st0 := by
  unfold active_learn_run
  rw [h]

theorem active_learn_run_seed_error {inp : ALInput F L C A G} {e : ALError}
    (h : seedPhase inp = .error e) (fuel : Nat) :
    active_learn_run inp fuel = some (.error e) := by
  unfold active_learn_run
  rw [h]

theorem active_learn_of_run_ok {inp : ALInput F L C A G}
    {st : RunState F L C A G} {fuel : Nat}
    (h : active_learn_run inp fuel = some (.ok st)) :
    active_learn inp fuel = some (.ok st.learningCurve) := by
  unfold active_learn
  rw [h]
  rfl

theorem active_learn_of_run_error {inp : ALInput F L C A G} {e : ALError}
    {fuel : Nat} (h : active_learn_run inp fuel = some (.error e)) :
    active_learn inp fuel = some (.error e) := by
  unfold active_learn
  rw [h]
  rfl

/-! ## Validity of the concrete random stream and heuristics -/

theorem rangeChoice_valid : ChoiceValid rangeChoice := by
  intro g n k _ hk
  refine ⟨List.length_range k, List.nodup_range k, ?_⟩
  intro i hi
  exact lt_of_lt_of_le (List.mem_range.1 hi) hk

theorem highestIndex_valid : HeuristicValid highestIndex := by
  intro cands xt yt c hne
  have hpos : 0 < cands.length := List.length_pos.2 hne
  refine ⟨by simp [highestIndex], List.nodup_singleton _, ?_⟩
  intro j hj
  rcases List.mem_singleton.1 hj with rfl
  omega

theorem highestIndex_le_one :
    ∀ (cands xt yt : List Nat) (c : Nat), (highestIndex cands xt yt c).length ≤ 1 :=
  fun _ _ _ _ => le_refl 1

theorem oobSelection_oob :
    ∀ (cands xt yt : List Nat) (c : Nat),
      ∃ j ∈ oobSelection cands xt yt c, cands.length ≤ j :=
  fun cands _ _ _ => ⟨cands.length, List.mem_singleton_self _, le_refl _⟩

/-! ## The claims -/

/-- C1: partition invariant of `active_learn`.  After the seed phase and
after every loop iteration, the labelled set and the unlabelled pool
together are a permutation of the original training pool (features and
labels) — sizes sum to the original pool size, nothing duplicated, nothing
omitted — and when the original pool has no duplicate rows the labelled set
is duplicate-free (no row transferred twice) and disjoint from the
remaining pool.  Preconditions as the claim states them: the random draw
yields distinct in-range indices (what `np.random.choice` guarantees) and
the heuristic returns a non-empty set of distinct in-range candidate
indices on every non-empty batch. -/
theorem C1_partition_invariant (inp : ALInput F L C A G) (k : Nat)
    {st0 st : RunState F L C A G}
    (hc : ChoiceValid inp.choice) (hh : HeuristicValid inp.heuristic)
    (hlen : inp.trainingPool.length = inp.trainingOracle.length)
    (hseed : seedPhase inp = .ok st0) (hreach : stepN inp k st0 = .ok st) :
    (st.xTrain ++ st.unlabelledPool).Perm inp.trainingPool ∧
    (st.yTrain ++ st.unlabelledOracle).Perm inp.trainingOracle ∧
    st.unlabelledPool.length + st.xTrain.length = inp.trainingPool.length ∧
    (inp.trainingPool.Nodup →
      st.xTrain.Nodup ∧ st.unlabelledPool.Nodup ∧
        ∀ a ∈ st.xTrain, a ∉ st.unlabelledPool) := by
  obtain ⟨hinv0, -, -, -⟩ := seedPhase_poolInv hc hlen hseed
  have hinv := stepN_poolInv hc hh hreach hinv0
  have hlen2 := hinv.permPool.length_eq
  rw [List.length_append] at hlen2
  refine ⟨hinv.permPool, hinv.permOracle, by omega, ?_⟩
  intro hnd
  have hall : (st.xTrain ++ st.unlabelledPool).Nodup := hinv.permPool.nodup_iff.2 hnd
  rcases List.nodup_append.1 hall with ⟨h1, h2, h3⟩
  exact ⟨h1, h2, fun a ha => h3 ha⟩

/-- C1 witness: the invariant on the concrete 100-example scenario, one
loop iteration after the seed phase. -/
theorem C1_partition_invariant_witness :
    ∃ st0 st, seedPhase scenarioInput = .ok st0 ∧
      stepN scenarioInput 1 st0 = .ok st ∧
      ((st.xTrain ++ st.unlabelledPool).Perm scenarioInput.trainingPool ∧
       (st.yTrain ++ st.unlabelledOracle).Perm scenarioInput.trainingOracle ∧
       st.unlabelledPool.length + st.xTrain.length
         = scenarioInput.trainingPool.length ∧
       (scenarioInput.trainingPool.Nodup →
         st.xTrain.Nodup ∧ st.unlabelledPool.Nodup ∧
           ∀ a ∈ st.xTrain, a ∉ st.unlabelledPool)) := by
  refine ⟨_, _, rfl, rfl, ?_⟩
  exact C1_partition_invariant scenarioInput 1 rangeChoice_valid
    highestIndex_valid rfl rfl rfl

/-- C2 (code bug): line 111's `candindate_size = min(random_n,
len(unlabelled_oracle))` makes the candidate batch EMPTY when
`random_n = 0`, not the entire remaining pool: at a state with 500
remaining examples the drawn batch has size `min(0, 500) = 0` (the ghost
`batchSizes` field records it), and no row is transferred.  This
contradicts the claim and the function's own docstring ("If random_n is
set to 0, the entire training pool will be sampled"). -/
theorem C2_zero_clamp_bug :
    candindateSize zeroRandomInput.randomN
        fiveHundredState.unlabelledOracle.length = 0 ∧
    fiveHundredState.unlabelledOracle.length = 500 ∧
    ∃ st2, alStep zeroRandomInput fiveHundredState = .ok st2 ∧
      st2.batchSizes = [0] ∧ st2.yTrain = fiveHundredState.yTrain := by
  exact ⟨by decide, rfl, _, rfl, rfl, rfl⟩

/-- C5 (code bug): in balanced mode the orchestrator silently truncates a
class slice when the class runs short, while the `np.repeat` label vector
keeps the full length: over `c5Pool` (one Galaxy example, slice size
`6 / 3 = 2`) the trial sub-pool has 5 feature rows but 6 labels, the second
`"Galaxy"` label sitting over a Star row — no error of any kind is raised,
refuting the claim's `InsufficientClassPoolError` behaviour. -/
theorem C5_balanced_slice_bug :
    (trialPools c5Orch 0).1 = [10, 20, 30, 40, 50] ∧
    (trialPools c5Orch 0).2
      = ["Galaxy", "Galaxy", "Star", "Star", "Quasar", "Quasar"] ∧
    (trialPools c5Orch 0).1.length ≠ (trialPools c5Orch 0).2.length := by
  exact ⟨rfl, rfl, by decide⟩

/-- C7 (amended): when `initial_n` exceeds the size of the (non-empty)
training pool, the run fails before the query loop starts — for every fuel
value the outcome is the sampling error of the seeding draw, the spec's
`InsufficientPoolError` — fatal and reported to the caller.  The claim's
parenthetical that `total_n ≤ 0` and mismatched lengths are also detected
eagerly is refuted by `C7_eager_config_counterexample`: the code performs
no such checks. -/
theorem C7_eager_config (inp : ALInput F L C A G)
    (hn : 0 < inp.trainingOracle.length)
    (hgt : (inp.trainingOracle.length : Int) < inp.initialN) :
    ∀ fuel, active_learn inp fuel = some (.error .insufficientPool) := by
  intro fuel
  exact active_learn_of_run_error
    (active_learn_run_seed_error (seedPhase_insufficient hn hgt) fuel)

/-- C7 witness: `initial_n = 5` on a 3-example pool fails eagerly. -/
theorem C7_eager_config_witness :
    active_learn overseedInput 1 = some (.error .insufficientPool) :=
  C7_eager_config overseedInput (by decide) (by decide) 1

/-- C7 counterexample: `total_n = 0` — per the claim a configuration error
detected eagerly and fatal to the run — is not detected at all: the run
completes successfully with a one-entry learning curve. -/
theorem C7_eager_config_counterexample :
    active_learn zeroTotalInput 1 = some (.ok [1]) := rfl

/-- C8: determinism given the random source.  Randomness is an explicit
input of the embedding (`choice` plus the state `g0`), and the heuristic,
classifier and accuracy function are pure functions bundled in `ALInput`,
so two runs with identical inputs — identical seed and random state
included — produce identical outcomes, in particular identical learning
curves. -/
theorem C8_determinism (inp1 inp2 : ALInput F L C A G) (fuel : Nat)
    (h : inp1 = inp2) :
    active_learn inp1 fuel = active_learn inp2 fuel := by rw [h]

/-- C8 witness: the concrete scenario run twice. -/
theorem C8_determinism_witness :
    active_learn scenarioInput 21 = active_learn scenarioInput 21 :=
  C8_determinism scenarioInput scenarioInput 21 rfl

/-- C9: frame property of `active_learn`.  The run operates on copies with
value semantics (the embedding's caller arrays are immutable values), every
dataset ever passed to `classifier.fit` (ghost `fitCalls`) consists of rows
of the caller's training pool — the testing pool is never trained on — and
every `compute_accuracy` call (ghost `accCalls`) receives exactly the
caller's unmodified testing pool and testing oracle.  This holds for every
reachable state of every run, with no assumptions on the heuristic or the
random stream. -/
theorem C9_frame (inp : ALInput F L C A G) (k : Nat)
    {st0 st : RunState F L C A G} (hseed : seedPhase inp = .ok st0)
    (hreach : stepN inp k st0 = .ok st) :
    (∀ xy ∈ st.fitCalls,
      (∀ a ∈ xy.1, a ∈ inp.trainingPool) ∧
        (∀ b ∈ xy.2, b ∈ inp.trainingOracle)) ∧
    (∀ t ∈ st.accCalls, t = (inp.testingPool, inp.testingOracle)) ∧
    (∀ a ∈ st.xTrain, a ∈ inp.trainingPool) ∧
    (∀ a ∈ st.unlabelledPool, a ∈ inp.trainingPool) := by
  have h0 := seedPhase_subsetInv hseed
  have h := stepN_subsetInv hreach h0
  exact ⟨h.fitCallsSub, h.accCallsEq, h.xTrainSub, h.poolSub⟩

/-- C9 witness: the frame property on a concrete 5-example run, one loop
iteration after the seed phase. -/
theorem C9_frame_witness :
    ∃ st0 st, seedPhase exhaustInput = .ok st0 ∧
      stepN exhaustInput 1 st0 = .ok st ∧
      ((∀ xy ∈ st.fitCalls,
          (∀ a ∈ xy.1, a ∈ exhaustInput.trainingPool) ∧
            (∀ b ∈ xy.2, b ∈ exhaustInput.trainingOracle)) ∧
       (∀ t ∈ st.accCalls,
          t = (exhaustInput.testingPool, exhaustInput.testingOracle)) ∧
       (∀ a ∈ st.xTrain, a ∈ exhaustInput.trainingPool) ∧
       (∀ a ∈ st.unlabelledPool, a ∈ exhaustInput.trainingPool)) := by
  refine ⟨_, _, rfl, rfl, ?_⟩
  exact C9_frame exhaustInput 1 rfl rfl

/-- C3: learning-curve length of `active_learn`.  For a single-selection
heuristic (exactly one valid index per non-empty batch — stated here as the
claim's validity contract plus a batch bound of one), `random_n ≥ 1` and
`initial_n ≤ total_n ≤ pool size`, the run completes with learning curve of
exactly `total_n - initial_n + 1` entries, labelled set of exactly
`total_n`, and unlabelled pool of exactly `pool size - total_n`.
`total_n = 1000, initial_n = 20` gives `1000 - 20 + 1 = 981` entries; the
witness instantiates the spec's 100-example scenario (21 entries, labelled
30, unlabelled 70). -/
theorem C3_curve_length (inp : ALInput F L C A G) (tn init rn : Nat)
    (hc : ChoiceValid inp.choice) (hh : HeuristicValid inp.heuristic)
    (hone : ∀ cands xt yt c, (inp.heuristic cands xt yt c).length ≤ 1)
    (hlen : inp.trainingPool.length = inp.trainingOracle.length)
    (htn : inp.totalN = (tn : Int)) (hinit : inp.initialN = (init : Int))
    (hrn : inp.randomN = (rn : Int))
    (h1 : 1 ≤ rn) (h3 : init ≤ tn) (h4 : tn ≤ inp.trainingOracle.length)
    (h5 : 0 < inp.trainingOracle.length) :
    ∃ st, active_learn_run inp (tn - init + 1) = some (.ok st) ∧
      active_learn inp (tn - init + 1) = some (.ok st.learningCurve) ∧
      st.learningCurve.length = tn - init + 1 ∧
      st.yTrain.length = tn ∧
      st.unlabelledPool.length = inp.trainingOracle.length - tn := by
  obtain ⟨st0, hseed⟩ := seedPhase_ok_of hc hlen h5 (by omega) (by omega)
  obtain ⟨hinv0, hy0, hc0, hu0⟩ := seedPhase_poolInv hc hlen hseed
  have hr : 1 ≤ inp.randomN := by omega
  have htot : inp.totalN ≤ (inp.trainingPool.length : Int) := by omega
  obtain ⟨st2, hloop, hinv2, hy2, hcur2⟩ :=
    alLoop_count hc hh hone hr htot (tn - init) st0 hinv0 (by omega)
  have hrun : active_learn_run inp (tn - init + 1) = some (.ok st2) :=
    (active_learn_run_seed_ok hseed _).trans hloop
  refine ⟨st2, hrun, active_learn_of_run_ok hrun, by omega, by omega, ?_⟩
  have hl2 := hinv2.permPool.length_eq
  rw [List.length_append] at hl2
  have hxy := hinv2.lenXY
  omega

/-- C3 witness: the spec's scenario — 100-example pool, two 50/50 classes,
`initial_n = 10`, `total_n = 30`, `random_n = 20`, highest-index
heuristic — yields a 21-entry curve, labelled set 30, unlabelled pool 70. -/
theorem C3_curve_length_witness :
    ∃ st, active_learn_run scenarioInput 21 = some (.ok st) ∧
      active_learn scenarioInput 21 = some (.ok st.learningCurve) ∧
      st.learningCurve.length = 21 ∧ st.yTrain.length = 30 ∧
      st.unlabelledPool.length = 70 := by
  have h := C3_curve_length scenarioInput 30 10 20 rangeChoice_valid
    highestIndex_valid highestIndex_le_one rfl rfl rfl rfl (by decide)
    (by decide) (by decide) (by decide)
  exact h

/-- C4: termination of `active_learn`.  First part: with
`total_n ≤ pool size` and a heuristic returning at least one valid
candidate index per (always non-empty) batch, the query loop terminates in
finitely many steps with a successful run.  Second part: with
`total_n > pool size` and a heuristic selecting at most one — hence, by the
claim's validity precondition, exactly one — candidate per step, the run
fails with the empty-population sampling error (`EmptyPoolError`) instead
of looping forever or silently truncating. -/
theorem C4_termination (inp1 inp2 : ALInput F L C A G)
    (hc1 : ChoiceValid inp1.choice) (hh1 : HeuristicValid inp1.heuristic)
    (hlen1 : inp1.trainingPool.length = inp1.trainingOracle.length)
    (hn1 : 0 < inp1.trainingOracle.length)
    (hi1 : 0 ≤ inp1.initialN)
    (hi1b : inp1.initialN ≤ (inp1.trainingOracle.length : Int))
    (hr1 : 1 ≤ inp1.randomN)
    (ht1 : inp1.totalN ≤ (inp1.trainingPool.length : Int))
    (hc2 : ChoiceValid inp2.choice) (hh2 : HeuristicValid inp2.heuristic)
    (hone2 : ∀ cands xt yt c, (inp2.heuristic cands xt yt c).length ≤ 1)
    (hlen2 : inp2.trainingPool.length = inp2.trainingOracle.length)
    (hi2 : 0 ≤ inp2.initialN)
    (hi2b : inp2.initialN ≤ (inp2.trainingOracle.length : Int))
    (hr2 : 1 ≤ inp2.randomN)
    (ht2 : (inp2.trainingPool.length : Int) < inp2.totalN) :
    (∃ fuel st, active_learn_run inp1 fuel = some (.ok st)) ∧
    (∃ fuel, active_learn inp2 fuel = some (.error .emptyPool)) := by
  constructor
  · obtain ⟨st0, hseed⟩ := seedPhase_ok_of hc1 hlen1 hn1 hi1 hi1b
    obtain ⟨hinv0, -, -, -⟩ := seedPhase_poolInv hc1 hlen1 hseed
    obtain ⟨st2, hloop, -, -⟩ := alLoop_term hc1 hh1 hr1 ht1
      inp1.totalN.toNat st0 hinv0 (by omega)
    exact ⟨inp1.totalN.toNat + 1, st2,
      (active_learn_run_seed_ok hseed _).trans hloop⟩
  · by_cases hn2 : inp2.trainingOracle.length = 0
    · have hseed : seedPhase inp2 = .error .emptyPool := by
        unfold seedPhase
        rw [hn2, npChoice_emptyPool]
      exact ⟨1, active_learn_of_run_error (active_learn_run_seed_error hseed 1)⟩
    · obtain ⟨st0, hseed⟩ :=
        seedPhase_ok_of hc2 hlen2 (Nat.pos_of_ne_zero hn2) hi2 hi2b
      obtain ⟨hinv0, -, -, -⟩ := seedPhase_poolInv hc2 hlen2 hseed
      have hloop := alLoop_exhaust hc2 hh2 hone2 hr2 ht2
        st0.unlabelledOracle.length st0 hinv0 rfl
      exact ⟨st0.unlabelledOracle.length + 1, active_learn_of_run_error
        ((active_learn_run_seed_ok hseed _).trans hloop)⟩

/-- C4 witness: the 100-example scenario terminates successfully;
the 5-example pool with `total_n = 7` fails with the empty-pool error. -/
theorem C4_termination_witness :
    (∃ fuel st, active_learn_run scenarioInput fuel = some (.ok st)) ∧
    (∃ fuel, active_learn exhaustInput fuel = some (.error .emptyPool)) :=
  C4_termination scenarioInput exhaustInput rangeChoice_valid
    highestIndex_valid rfl (by decide) (by decide) (by decide) (by decide)
    (by decide) rangeChoice_valid highestIndex_valid highestIndex_le_one rfl
    (by decide) (by decide) (by decide) (by decide)

/-- C6 (amended): heuristic contract enforcement.  If the heuristic returns
an index outside the candidate batch's valid range, the run fails at the
fancy-indexing step with the fatal index error (`X_train_candidates[best_index]`
raises `IndexError`), for every fuel value — never retried or swallowed.
An EMPTY heuristic result, by contrast, is NOT detected: the code raises
nothing and the loop never terminates (see the counterexample). -/
theorem C6_heuristic_contract (inp : ALInput F L C A G)
    (hc : ChoiceValid inp.choice)
    (hlen : inp.trainingPool.length = inp.trainingOracle.length)
    (hoob : ∀ cands xt yt c, ∃ j ∈ inp.heuristic cands xt yt c,
      cands.length ≤ j)
    (hi : 0 ≤ inp.initialN)
    (hib : inp.initialN < (inp.trainingOracle.length : Int))
    (hr : 1 ≤ inp.randomN)
    (hguard : inp.initialN < inp.totalN) :
    ∀ fuel, active_learn inp (fuel + 1) = some (.error .indexOutOfRange) := by
  intro fuel
  have hn : 0 < inp.trainingOracle.length := by omega
  obtain ⟨st0, hseed⟩ := seedPhase_ok_of hc hlen hn hi (le_of_lt hib)
  obtain ⟨hinv0, hy0, -, hu0⟩ := seedPhase_poolInv hc hlen hseed
  have hne : st0.unlabelledOracle ≠ [] := by
    intro hnil
    have : st0.unlabelledOracle.length = 0 := by rw [hnil]; rfl
    omega
  have hg : (st0.yTrain.length : Int) < inp.totalN := by omega
  have hnpos : 0 < st0.unlabelledOracle.length := List.length_pos.2 hne
  have h1n : (1 : Int) ≤ (st0.unlabelledOracle.length : Int) := by
    exact_mod_cast hnpos
  have hcs1 : (1 : Int) ≤ candindateSize inp.randomN st0.unlabelledOracle.length :=
    le_min hr h1n
  have hcsle : candindateSize inp.randomN st0.unlabelledOracle.length
      ≤ (st0.unlabelledOracle.length : Int) := min_le_right _ _
  have hnp : npChoice inp.choice st0.g st0.unlabelledOracle.length
      (candindateSize inp.randomN st0.unlabelledOracle.length)
      = .ok (inp.choice st0.g st0.unlabelledOracle.length
          (candindateSize inp.randomN st0.unlabelledOracle.length).toNat) :=
    npChoice_ok hnpos (by omega) hcsle
  obtain ⟨hcilen, hcind, hcilt⟩ := hc st0.g st0.unlabelledOracle.length
    (candindateSize inp.randomN st0.unlabelledOracle.length).toNat hnpos
    (Int.toNat_le.2 hcsle)
  have hcipool : ∀ i ∈ (inp.choice st0.g st0.unlabelledOracle.length
      (candindateSize inp.randomN st0.unlabelledOracle.length).toNat).1,
      i < st0.unlabelledPool.length := by
    intro i hi2
    rw [hinv0.lenPO]
    exact hcilt i hi2
  obtain ⟨xc, hxc⟩ := selectIdx_of_forall_lt hcipool
  obtain ⟨yc, hyc⟩ := selectIdx_of_forall_lt hcilt
  obtain ⟨j, hj, hjge⟩ := hoob xc st0.xTrain st0.yTrain st0.classifier
  have hxbnone : selectIdx xc
      (inp.heuristic xc st0.xTrain st0.yTrain st0.classifier) = none :=
    selectIdx_none_of_oob ⟨j, hj, hjge⟩
  have hstep : alStep inp st0 = .error .indexOutOfRange := by
    simp only [alStep, hnp, hxc, hyc, hxbnone]
  exact active_learn_of_run_error
    ((active_learn_run_seed_ok hseed _).trans (alLoop_error hg hstep fuel))

/-- C6 witness: a heuristic that always returns an out-of-range index makes
the concrete 5-example run fail with the index error on its first
iteration. -/
theorem C6_heuristic_contract_witness :
    active_learn oobInput 1 = some (.error .indexOutOfRange) :=
  C6_heuristic_contract oobInput rangeChoice_valid rfl oobSelection_oob
    (by decide) (by decide) (by decide) (by decide) 0

/-- C6 counterexample: the claim also asserts that an EMPTY heuristic
result makes the run fail with `InvalidHeuristicResult`.  It does not: with
a heuristic that always returns the empty set the run raises no error and
never returns either — the iteration completes without transferring
anything, `len(y_train)` never grows, and for no amount of fuel does the
run produce any outcome. -/
theorem C6_heuristic_contract_counterexample :
    ¬ ∃ fuel r, active_learn stuckInput fuel = some r := by
  rintro ⟨fuel, r, h⟩
  have hseed : seedPhase stuckInput = .ok stuckSeedState := rfl
  have hstuck : alLoop stuckInput fuel stuckSeedState = none :=
    alLoop_stuck (fun _ _ _ _ => rfl) rangeChoice_valid (by decide) fuel
      stuckSeedState (by decide) (by decide) (by decide)
  unfold active_learn at h
  rw [active_learn_run_seed_ok hseed, hstuck] at h
  exact absurd h (by simp)

/-- C10: `run_active_learning_with_heuristic` returns the ordered list of
per-trial learning curves exactly when `pickle_path` is falsy; with a
truthy `pickle_path` it writes the list of curves to that path and returns
`None`, so such callers never receive the curves as a return value. -/
theorem C10_return_vs_pickle (o : OrchInput F C A G) (fuel : Nat)
    {out : OrchOut A}
    (h : run_active_learning_with_heuristic o fuel = some (.ok out)) :
    ∃ cs g2 c2,
      runTrials o fuel ((List.range o.noTrials).map (fun t => t * iStep o))
        o.base.g0 o.base.classifier0 = some (.ok (cs, g2, c2)) ∧
      (truthy o.picklePath = true →
        out.returned = none ∧ out.written = [(pathOrEmpty o.picklePath, cs)]) ∧
      (truthy o.picklePath = false →
        out.returned = some cs ∧ out.written = []) := by
  unfold run_active_learning_with_heuristic at h
  split at h
  · exact absurd h (by simp)
  · exact absurd h (by simp)
  · rename_i curves g2 c2 heq
    refine ⟨curves, g2, c2, heq, ?_, ?_⟩
    · intro ht
      rw [if_pos ht] at h
      have h1 := Option.some_injective _ h
      have hout : out = { returned := none
                          written := [(pathOrEmpty o.picklePath, curves)] } :=
        (Except.ok.injEq _ _ ▸ h1).symm
      rw [hout]
      exact ⟨rfl, rfl⟩
    · intro hf
      have hnt : ¬ (truthy o.picklePath = true) := by simp [hf]
      rw [if_neg hnt] at h
      have h1 := Option.some_injective _ h
      have hout : out = { returned := some curves, written := [] } :=
        (Except.ok.injEq _ _ ▸ h1).symm
      rw [hout]
      exact ⟨rfl, rfl⟩

/-- C10 witness: a concrete one-trial run with a pickle path returns `None`
and records the pickled curves at that path. -/
theorem C10_return_vs_pickle_witness :
    ∃ out, run_active_learning_with_heuristic orchPickled 1 = some (.ok out) ∧
      ∃ cs g2 c2,
        runTrials orchPickled 1
            ((List.range orchPickled.noTrials).map
              (fun t => t * iStep orchPickled))
            orchPickled.base.g0 orchPickled.base.classifier0
          = some (.ok (cs, g2, c2)) ∧
        (truthy orchPickled.picklePath = true →
          out.returned = none ∧
            out.written = [(pathOrEmpty orchPickled.picklePath, cs)]) ∧
        (truthy orchPickled.picklePath = false →
          out.returned = some cs ∧ out.written = []) := by
  refine ⟨_, rfl, ?_⟩
  exact C10_return_vs_pickle orchPickled 1 rfl

end Mclearn
